import Mathlib

/-!
Verification of the crawl-and-extract pipeline of the
monad-bft-research scraper suite.

The Lean definitions below are a shallow embedding of the three scraper
modules (arxiv_scraper.py, blog_scraper.py, docs_scraper.py).  HTML and
XML documents are modelled by the outcome of the selector queries the
code performs on them (each field of `Html` / `Article` / `Entry` is the
text produced by the corresponding fallback chain of `find` calls, with
`none` for "no element matched"), network access is modelled by a
function from URLs to optional documents, and Python exceptions are
modelled with `Except` / `Option`.
-/

/-! ## URL model

`urlparse`/`urljoin` results are modelled post-resolution: a URL is its
network location, path, and optional fragment.  The string form of a URL
contains a hash character exactly when its fragment is present. -/

structure Url where
  netloc : String
  path : String
  fragment : Option String
deriving DecidableEq, Repr

/-- `'#' in full_url` on the string form of a parsed URL. -/
def urlHasHash (u : Url) : Bool :=
  u.fragment.isSome

/-! ## Small Python string primitives used by the scrapers -/

/-- Python `str.strip()`: drop whitespace on both ends. -/
def pyStrip (s : String) : String :=
  String.mk (((s.toList.dropWhile Char.isWhitespace).reverse.dropWhile Char.isWhitespace).reverse)

/-- Python `str.strip(c)` for a single character `c`. -/
def stripChars (s : String) (c : Char) : String :=
  String.mk (((s.toList.dropWhile (· == c)).reverse.dropWhile (· == c)).reverse)

/-- Python `str.replace(c, r)` for single-character pattern and replacement. -/
def replaceChar (s : String) (c r : Char) : String :=
  String.mk (s.toList.map (fun x => if x == c then r else x))

/-- Python `str.lower()` (ASCII case folding, as used by the scrapers). -/
def pyLower (s : String) : String :=
  String.mk (s.toList.map Char.toLower)

/-- Python `hay.__contains__(needle)`: substring test (`needle in hay`). -/
def strContainsSub (hay needle : String) : Bool :=
  (List.range (hay.toList.length + 1)).any
    (fun i => ((hay.toList.drop i).take needle.toList.length) == needle.toList)

/-- Scan for the left-to-right non-overlapping occurrences of `sep`,
remembering the suffix after the most recent one; this computes Python
`s.split(sep)[-1]`.  `skip` counts characters still inside the previous
match, so overlapping occurrences are ignored exactly as `str.split`
ignores them. -/
def splitLastGo (sep : List Char) : List Char → Nat → List Char → List Char
  | [], _, acc => acc
  | _ :: rest, n + 1, acc => splitLastGo sep rest n acc
  | c :: rest, 0, acc =>
    if sep.isPrefixOf (c :: rest) then
      splitLastGo sep rest (sep.length - 1) ((c :: rest).drop sep.length)
    else
      splitLastGo sep rest 0 acc

/-- Python `s.split(sep)[-1]` for nonempty `sep`. -/
def pySplitLast (s sep : String) : String :=
  String.mk (splitLastGo sep.toList s.toList 0 s.toList)

/-! ## Blog data model (blog_scraper.py) -/

/-- `BlogPost` dataclass of blog_scraper.py. -/
structure BlogPost where
  url : Url
  title : String
  author : Option String
  published : Option String
  content : String
  excerpt : String
  tags : List String
  source : String
deriving DecidableEq, Repr

/-- The fixed keyword list of `BlogScraper.filter_monadbft_posts`. -/
def keywords : List String :=
  ["monadbft", "hotstuff", "bft", "consensus",
   "byzantine", "finality", "fork", "blockchain"]

/-- The match test of `filter_monadbft_posts`: build
`f"{post.title} {post.content} {' '.join(post.tags)}".lower()` and ask
whether any keyword occurs in it. -/
def matchesKeywords (post : BlogPost) : Bool :=
  let text := pyLower (post.title ++ " " ++ post.content ++ " " ++ String.intercalate " " post.tags)
  keywords.any (fun kw => strContainsSub text kw)

/-- `BlogScraper.filter_monadbft_posts`: the accumulating loop over the
input posts. -/
def filterMonadbftPosts (posts : List BlogPost) : List BlogPost :=
  posts.foldl (fun acc post => if matchesKeywords post then acc ++ [post] else acc) []

/-! ## Generic lemma: an append-accumulating loop is a filter -/

theorem foldl_append_filter {α : Type} (p : α → Bool) (l : List α) :
    ∀ acc : List α,
      l.foldl (fun acc t => if p t then acc ++ [t] else acc) acc = acc ++ l.filter p := by
  induction l with
  | nil => intro acc; simp
  | cons x xs ih =>
    intro acc
    by_cases hx : p x
    · simp [List.foldl_cons, hx, ih]
    · simp [List.foldl_cons, hx, ih]

/-! ## Concrete posts for the keyword-filter example -/

def blogBaseUrl : Url :=
  { netloc := "blog.categorylabs.xyz", path := "", fragment := none }

def postMonadbftExample : BlogPost :=
  { url := blogBaseUrl, title := "MonadBFT update", author := none,
    published := none, content := "", excerpt := "", tags := [],
    source := "category_labs" }

def postCookingExample : BlogPost :=
  { url := blogBaseUrl, title := "Cooking tips", author := none,
    published := none, content := "", excerpt := "", tags := [],
    source := "category_labs" }

/-- C7: the keyword content filter is a pure selection over already
extracted records: it returns exactly the subsequence of the input, in
input order and with no record modified, of the posts for which some
keyword of the fixed keyword set occurs case-insensitively in the
(space-joined) concatenation of title, body, and tags; on the posts
titled "MonadBFT update" and "Cooking tips" it keeps only the first. -/
theorem filter_monadbft_posts_spec (posts : List BlogPost) :
    filterMonadbftPosts posts = posts.filter matchesKeywords ∧
    List.Sublist (filterMonadbftPosts posts) posts ∧
    (∀ p, p ∈ filterMonadbftPosts posts ↔ p ∈ posts ∧ matchesKeywords p = true) ∧
    filterMonadbftPosts [postMonadbftExample, postCookingExample] = [postMonadbftExample] := by
  refine ⟨?_, ?_, ?_, ?_⟩
  · simpa using foldl_append_filter matchesKeywords posts []
  · rw [show filterMonadbftPosts posts = posts.filter matchesKeywords from by
      simpa using foldl_append_filter matchesKeywords posts []]
    exact List.filter_sublist posts
  · intro p
    rw [show filterMonadbftPosts posts = posts.filter matchesKeywords from by
      simpa using foldl_append_filter matchesKeywords posts []]
    simp [List.mem_filter]
  · decide

/-! ## arXiv data model (arxiv_scraper.py)

An Atom `entry` element is modelled by the texts of the elements that
`_parse_response` / `search_papers` query on it: `none` records that the
corresponding element is absent, in which case the Python code's
`.find(...).text` access raises an `AttributeError`. -/

structure ArxivPaper where
  paper_id : String
  title : String
  authors : List String
  abstract : String
  published : String
  updated : String
  pdf_url : String
  arxiv_url : String
  categories : List (Option String)
  doi : Option String
  journal_ref : Option String
deriving DecidableEq, Repr

structure Entry where
  idText : Option String
  titleText : Option String
  summaryText : Option String
  publishedText : Option String
  updatedText : Option String
  authorNames : List (Option String)
  categoryTerms : List (Option String)
  doiText : Option String
  journalText : Option String
deriving DecidableEq, Repr

/-- A well-formed Atom feed: the list of its `entry` elements.  A
malformed XML document (which makes `ET.fromstring` raise
`ET.ParseError`) is modelled as `none` at the call sites. -/
structure Feed where
  entries : List Entry
deriving DecidableEq, Repr

/-- The Python exceptions the parsing code can raise. -/
inductive PyError where
  | attributeError
  | parseError
deriving DecidableEq, Repr

/-- `elem.text` on the result of a `find` call: raises `AttributeError`
when the element is absent. -/
def textOf (o : Option String) : Except PyError String :=
  match o with
  | none => Except.error PyError.attributeError
  | some s => Except.ok s

/-- The entry-parsing body of `ArxivScraper._parse_response`
(lines 94-138), field accesses in source order. -/
def parseEntry (e : Entry) : Except PyError ArxivPaper :=
  match e.idText with
  | none => Except.error PyError.attributeError
  | some paperUrl =>
    let pid := pySplitLast paperUrl "/abs/"
    match e.titleText with
    | none => Except.error PyError.attributeError
    | some t =>
      match e.summaryText with
      | none => Except.error PyError.attributeError
      | some s =>
        match e.publishedText with
        | none => Except.error PyError.attributeError
        | some published =>
          match e.updatedText with
          | none => Except.error PyError.attributeError
          | some updated =>
            match e.authorNames.mapM textOf with
            | Except.error err => Except.error err
            | Except.ok authors =>
              Except.ok
                { paper_id := pid,
                  title := replaceChar (pyStrip t) '\n' ' ',
                  authors := authors,
                  abstract := pyStrip s,
                  published := published,
                  updated := updated,
                  pdf_url := "https://arxiv.org/pdf/" ++ pid ++ ".pdf",
                  arxiv_url := "https://arxiv.org/abs/" ++ pid,
                  categories := e.categoryTerms,
                  doi := e.doiText,
                  journal_ref := e.journalText }

/-- `ArxivScraper._parse_response` (lines 79-142): only `ET.ParseError`
is caught (yielding `None`); a missing `entry` yields `None`; any other
exception escapes the call. -/
def parseResponse (xml : Option Feed) : Except PyError (Option ArxivPaper) :=
  match xml with
  | none => Except.ok none
  | some feed =>
    match feed.entries.head? with
    | none => Except.ok none
    | some e =>
      match parseEntry e with
      | Except.error err => Except.error err
      | Except.ok p => Except.ok (some p)

/-- The per-entry parsing of `ArxivScraper.search_papers`
(lines 200-226): identical to `parseEntry` except that `doi` and
`journal_ref` are not extracted. -/
def searchParseEntry (e : Entry) : Except PyError ArxivPaper :=
  match e.idText with
  | none => Except.error PyError.attributeError
  | some paperUrl =>
    let pid := pySplitLast paperUrl "/abs/"
    match e.titleText with
    | none => Except.error PyError.attributeError
    | some t =>
      match e.summaryText with
      | none => Except.error PyError.attributeError
      | some s =>
        match e.publishedText with
        | none => Except.error PyError.attributeError
        | some published =>
          match e.updatedText with
          | none => Except.error PyError.attributeError
          | some updated =>
            match e.authorNames.mapM textOf with
            | Except.error err => Except.error err
            | Except.ok authors =>
              Except.ok
                { paper_id := pid,
                  title := replaceChar (pyStrip t) '\n' ' ',
                  authors := authors,
                  abstract := pyStrip s,
                  published := published,
                  updated := updated,
                  pdf_url := "https://arxiv.org/pdf/" ++ pid ++ ".pdf",
                  arxiv_url := "https://arxiv.org/abs/" ++ pid,
                  categories := e.categoryTerms,
                  doi := none,
                  journal_ref := none }

/-- `ArxivScraper.search_papers` (lines 188-232), parsing part: the
whole entry loop sits inside one `try`/`except Exception` block that
returns `[]`, so a single failing entry discards every parsed paper. -/
def searchPapersParse (xml : Option Feed) : List ArxivPaper :=
  match xml with
  | none => []
  | some feed =>
    match feed.entries.mapM searchParseEntry with
    | Except.ok papers => papers
    | Except.error _ => []

/-! ## Deduplication (ArxivScraper.fetch_related_papers, lines 254-262) -/

/-- The `seen`/`unique_papers` loop of `fetch_related_papers`. -/
def dedupeAux (seen : List String) (unique : List ArxivPaper) :
    List ArxivPaper → List ArxivPaper
  | [] => unique
  | p :: rest =>
    if seen.contains p.paper_id then dedupeAux seen unique rest
    else dedupeAux (seen ++ [p.paper_id]) (unique ++ [p]) rest

/-- The deduplication pass of `fetch_related_papers`: `seen = set()`,
`unique_papers = []`, then the loop. -/
def removeDuplicates (papers : List ArxivPaper) : List ArxivPaper :=
  dedupeAux [] [] papers

/-- Specification-side deduplication, written from the spec's words:
keep the first record of each distinct identity, in first-occurrence
order, discarding every later record whose identity was already kept. -/
def dedupeSpec : List ArxivPaper → List ArxivPaper
  | [] => []
  | p :: rest => p :: dedupeSpec (rest.filter (fun q => q.paper_id != p.paper_id))
termination_by l => l.length
decreasing_by
  simp only [List.length_cons]
  exact Nat.lt_succ_of_le (List.length_filter_le _ _)

theorem dedupeSpec_sublist_aux :
    ∀ n (l : List ArxivPaper), l.length ≤ n → List.Sublist (dedupeSpec l) l := by
  intro n
  induction n with
  | zero =>
    intro l hl
    have hnil : l = [] := by cases l with | nil => rfl | cons a t => simp at hl
    simp [hnil, dedupeSpec]
  | succ n ih =>
    intro l hl
    cases l with
    | nil => simp [dedupeSpec]
    | cons p rest =>
      rw [dedupeSpec]
      refine List.Sublist.cons₂ p ?_
      exact (ih _ (le_trans (List.length_filter_le _ _)
        (Nat.succ_le_succ_iff.mp hl))).trans (List.filter_sublist rest)

theorem dedupeSpec_sublist (l : List ArxivPaper) : List.Sublist (dedupeSpec l) l :=
  dedupeSpec_sublist_aux l.length l le_rfl

theorem dedupeSpec_ids_nodup_aux :
    ∀ n (l : List ArxivPaper), l.length ≤ n →
      ((dedupeSpec l).map (fun p => p.paper_id)).Nodup := by
  intro n
  induction n with
  | zero =>
    intro l hl
    have hnil : l = [] := by cases l with | nil => rfl | cons a t => simp at hl
    simp [hnil, dedupeSpec]
  | succ n ih =>
    intro l hl
    cases l with
    | nil => simp [dedupeSpec]
    | cons p rest =>
      rw [dedupeSpec]
      simp only [List.map_cons, List.nodup_cons]
      constructor
      · intro hmem
        obtain ⟨q, hq, hqid⟩ := List.mem_map.mp hmem
        have hqf : q ∈ rest.filter (fun q => q.paper_id != p.paper_id) :=
          (dedupeSpec_sublist _).mem hq
        have := (List.mem_filter.mp hqf).2
        simp [hqid] at this
      · exact ih _ (le_trans (List.length_filter_le _ _) (Nat.succ_le_succ_iff.mp hl))

theorem dedupeSpec_ids_nodup (l : List ArxivPaper) :
    ((dedupeSpec l).map (fun p => p.paper_id)).Nodup :=
  dedupeSpec_ids_nodup_aux l.length l le_rfl

theorem dedupeSpec_covers_aux :
    ∀ n (l : List ArxivPaper), l.length ≤ n →
      ∀ p ∈ l, ∃ q ∈ dedupeSpec l, q.paper_id = p.paper_id := by
  intro n
  induction n with
  | zero =>
    intro l hl p hp
    have hnil : l = [] := by cases l with | nil => rfl | cons a t => simp at hl
    rw [hnil] at hp
    cases hp
  | succ n ih =>
    intro l hl p hp
    cases l with
    | nil => cases hp
    | cons a rest =>
      rw [dedupeSpec]
      rcases List.mem_cons.mp hp with hpa | hprest
      · exact ⟨a, List.mem_cons_self _ _, by rw [hpa]⟩
      · by_cases hid : p.paper_id = a.paper_id
        · exact ⟨a, List.mem_cons_self _ _, hid.symm⟩
        · have hpf : p ∈ rest.filter (fun q => q.paper_id != a.paper_id) :=
            List.mem_filter.mpr ⟨hprest, by simp [hid]⟩
          obtain ⟨q, hq, hqid⟩ := ih _ (le_trans (List.length_filter_le _ _)
            (Nat.succ_le_succ_iff.mp hl)) p hpf
          exact ⟨q, List.mem_cons_of_mem _ hq, hqid⟩

theorem dedupeSpec_covers (l : List ArxivPaper) :
    ∀ p ∈ l, ∃ q ∈ dedupeSpec l, q.paper_id = p.paper_id :=
  dedupeSpec_covers_aux l.length l le_rfl

theorem dedupeAux_eq (l : List ArxivPaper) :
    ∀ seen unique, dedupeAux seen unique l =
      unique ++ dedupeSpec (l.filter (fun p => !seen.contains p.paper_id)) := by
  induction l with
  | nil => intro seen unique; simp [dedupeAux, dedupeSpec]
  | cons p rest ih =>
    intro seen unique
    by_cases hmem : p.paper_id ∈ seen
    · rw [show dedupeAux seen unique (p :: rest) = dedupeAux seen unique rest from by
        simp [dedupeAux, hmem]]
      rw [ih]
      simp [List.filter_cons, hmem]
    · rw [show dedupeAux seen unique (p :: rest) =
          dedupeAux (seen ++ [p.paper_id]) (unique ++ [p]) rest from by
        simp [dedupeAux, hmem]]
      rw [ih]
      have hfl : (p :: rest).filter (fun q => !seen.contains q.paper_id) =
          p :: rest.filter (fun q => !seen.contains q.paper_id) := by
        simp [List.filter_cons, hmem]
      rw [hfl, dedupeSpec]
      have hcomp : rest.filter (fun q => !(seen ++ [p.paper_id]).contains q.paper_id) =
          (rest.filter (fun q => !seen.contains q.paper_id)).filter
            (fun q => q.paper_id != p.paper_id) := by
        rw [List.filter_filter]
        refine List.filter_congr ?_
        intro x _
        by_cases h1 : x.paper_id ∈ seen
        · simp [h1, List.mem_append]
        · by_cases h2 : x.paper_id = p.paper_id
          · simp [h1, h2, List.mem_append]
          · simp [h1, h2, List.mem_append]
      rw [hcomp]
      simp

theorem removeDuplicates_eq_dedupeSpec (l : List ArxivPaper) :
    removeDuplicates l = dedupeSpec l := by
  have h := dedupeAux_eq l [] []
  simpa [removeDuplicates] using h

/-- A paper record that differs only in identity and title, for the
deduplication example. -/
def mkPaper (pid t : String) : ArxivPaper :=
  { paper_id := pid, title := t, authors := [], abstract := "",
    published := "", updated := "", pdf_url := "", arxiv_url := "",
    categories := [], doi := none, journal_ref := none }

/-- C3: deduplication keeps exactly one record per distinct identity —
the first occurrence — preserving first-occurrence order: the loop of
`fetch_related_papers` equals the specification-side first-occurrence
dedup, its output identities are pairwise distinct, the output is a
subsequence of the input, every input identity is represented, and on
identities [A,B,A,C,B] it yields [A,B,C] (keeping the first A and the
first B). -/
theorem remove_duplicates_spec (papers : List ArxivPaper) :
    removeDuplicates papers = dedupeSpec papers ∧
    ((removeDuplicates papers).map (fun p => p.paper_id)).Nodup ∧
    List.Sublist (removeDuplicates papers) papers ∧
    (∀ p ∈ papers, ∃ q ∈ removeDuplicates papers, q.paper_id = p.paper_id) ∧
    removeDuplicates [mkPaper "A" "first A", mkPaper "B" "first B", mkPaper "A" "second A",
        mkPaper "C" "first C", mkPaper "B" "second B"] =
      [mkPaper "A" "first A", mkPaper "B" "first B", mkPaper "C" "first C"] := by
  refine ⟨removeDuplicates_eq_dedupeSpec papers, ?_, ?_, ?_, ?_⟩
  · rw [removeDuplicates_eq_dedupeSpec]
    exact dedupeSpec_ids_nodup papers
  · rw [removeDuplicates_eq_dedupeSpec]
    exact dedupeSpec_sublist papers
  · rw [removeDuplicates_eq_dedupeSpec]
    exact dedupeSpec_covers papers
  · decide

/-! ## Error behaviour of single-item vs batch parsing (C2, C5) -/

/-- One of the five required entry fields is absent. -/
def requiredFieldMissing (e : Entry) : Prop :=
  e.idText = none ∨ e.titleText = none ∨ e.summaryText = none ∨
  e.publishedText = none ∨ e.updatedText = none

theorem parseEntry_error_of_missing (e : Entry) (h : requiredFieldMissing e) :
    ∃ err, parseEntry e = Except.error err := by
  cases hid : e.idText with
  | none => exact ⟨PyError.attributeError, by simp [parseEntry, hid]⟩
  | some u =>
    cases hti : e.titleText with
    | none => exact ⟨PyError.attributeError, by simp [parseEntry, hid, hti]⟩
    | some t =>
      cases hsu : e.summaryText with
      | none => exact ⟨PyError.attributeError, by simp [parseEntry, hid, hti, hsu]⟩
      | some s =>
        cases hpu : e.publishedText with
        | none => exact ⟨PyError.attributeError, by simp [parseEntry, hid, hti, hsu, hpu]⟩
        | some w =>
          cases hup : e.updatedText with
          | none => exact ⟨PyError.attributeError, by simp [parseEntry, hid, hti, hsu, hpu, hup]⟩
          | some v => simp [requiredFieldMissing, hid, hti, hsu, hpu, hup] at h

theorem searchParseEntry_error_of_missing (e : Entry) (h : requiredFieldMissing e) :
    ∃ err, searchParseEntry e = Except.error err := by
  cases hid : e.idText with
  | none => exact ⟨PyError.attributeError, by simp [searchParseEntry, hid]⟩
  | some u =>
    cases hti : e.titleText with
    | none => exact ⟨PyError.attributeError, by simp [searchParseEntry, hid, hti]⟩
    | some t =>
      cases hsu : e.summaryText with
      | none => exact ⟨PyError.attributeError, by simp [searchParseEntry, hid, hti, hsu]⟩
      | some s =>
        cases hpu : e.publishedText with
        | none => exact ⟨PyError.attributeError, by simp [searchParseEntry, hid, hti, hsu, hpu]⟩
        | some w =>
          cases hup : e.updatedText with
          | none => exact ⟨PyError.attributeError, by simp [searchParseEntry, hid, hti, hsu, hpu, hup]⟩
          | some v => simp [requiredFieldMissing, hid, hti, hsu, hpu, hup] at h

theorem mapMloop_error_of_mem {α β ε : Type} (f : α → Except ε β) (l : List α) (x : α)
    (hx : x ∈ l) (err : ε) (hf : f x = Except.error err) :
    ∀ acc, ∃ err2, List.mapM.loop f l acc = Except.error err2 := by
  induction l with
  | nil => cases hx
  | cons a rest ih =>
    intro acc
    have hstep : List.mapM.loop f (a :: rest) acc =
        Except.bind (f a) (fun b2 => List.mapM.loop f rest (b2 :: acc)) := rfl
    cases hfa : f a with
    | error e2 => exact ⟨e2, by rw [hstep, hfa]; rfl⟩
    | ok b =>
      rcases List.mem_cons.mp hx with hxa | hxr
      · rw [hxa] at hf
        rw [hf] at hfa
        cases hfa
      · obtain ⟨err2, hrest⟩ := ih hxr (b :: acc)
        exact ⟨err2, by rw [hstep, hfa]; exact hrest⟩

theorem mapM_error_of_mem {α β ε : Type} (f : α → Except ε β) (l : List α) (x : α)
    (hx : x ∈ l) (err : ε) (hf : f x = Except.error err) :
    ∃ err2, l.mapM f = Except.error err2 :=
  mapMloop_error_of_mem f l x hx err hf []

/-- C2 (amended): a missing required field makes the single-item parse
fail as a whole — the error (a Python `AttributeError`, which
`_parse_response` does not catch) escapes the call.  In the batch search
case the same defect does not skip just that entry: the surrounding
`try`/`except Exception` aborts the whole loop, so the entire batch
collapses to the empty list and even previously parsed entries are
discarded.  When every entry parses, all are returned. -/
theorem parse_strict_batch_all_or_nothing :
    (∀ e rest, requiredFieldMissing e →
      ∃ err, parseResponse (some ⟨e :: rest⟩) = Except.error err) ∧
    (∀ feed e, e ∈ feed.entries → requiredFieldMissing e →
      searchPapersParse (some feed) = []) ∧
    (∀ feed papers, feed.entries.mapM searchParseEntry = Except.ok papers →
      searchPapersParse (some feed) = papers) := by
  refine ⟨?_, ?_, ?_⟩
  · intro e rest h
    obtain ⟨err, herr⟩ := parseEntry_error_of_missing e h
    exact ⟨err, by simp [parseResponse, herr]⟩
  · intro feed e he h
    obtain ⟨err, herr⟩ := searchParseEntry_error_of_missing e h
    obtain ⟨err2, h2⟩ := mapM_error_of_mem searchParseEntry feed.entries e he err herr
    simp only [searchPapersParse]
    rw [h2]
  · intro feed papers h
    simp only [searchPapersParse]
    rw [h]

/-- An entry with every field present. -/
def entryGood : Entry :=
  { idText := some "http://arxiv.org/abs/1111.2222v1", titleText := some "Good paper",
    summaryText := some "An abstract.", publishedText := some "2024-01-01",
    updatedText := some "2024-01-02", authorNames := [some "Alice"],
    categoryTerms := [some "cs.DC"], doiText := none, journalText := none }

/-- An entry whose required `title` element is absent. -/
def entryBad : Entry :=
  { idText := some "http://arxiv.org/abs/9999.0001v1", titleText := none,
    summaryText := some "s", publishedText := some "p",
    updatedText := some "u", authorNames := [], categoryTerms := [],
    doiText := none, journalText := none }

/-- The paper parsed from `entryGood`. -/
def paperGood : ArxivPaper :=
  { paper_id := "1111.2222v1", title := "Good paper", authors := ["Alice"],
    abstract := "An abstract.", published := "2024-01-01", updated := "2024-01-02",
    pdf_url := "https://arxiv.org/pdf/1111.2222v1.pdf",
    arxiv_url := "https://arxiv.org/abs/1111.2222v1",
    categories := [some "cs.DC"], doi := none, journal_ref := none }

/-- C2 counterexample: in a search response whose first entry is fine
and whose second entry is missing its title, the claim predicts that the
defective entry is skipped and `[paperGood]` is returned; the code
returns `[]`, discarding the good entry as well. -/
theorem search_papers_batch_abort_cx :
    searchParseEntry entryGood = Except.ok paperGood ∧
    searchPapersParse (some ⟨[entryGood, entryBad]⟩) = [] ∧
    ([] : List ArxivPaper) ≠ [paperGood] := by
  refine ⟨rfl, rfl, by simp⟩

/-- C2 witness: the amended theorem applied to the concrete defective
entry, alone (single-item call fails) and after a good entry (batch
returns nothing). -/
theorem parse_strict_batch_witness :
    requiredFieldMissing entryBad ∧
    (∃ err, parseResponse (some ⟨[entryBad]⟩) = Except.error err) ∧
    searchPapersParse (some ⟨[entryGood, entryBad]⟩) = [] :=
  ⟨Or.inr (Or.inl rfl),
   parse_strict_batch_all_or_nothing.1 entryBad [] (Or.inr (Or.inl rfl)),
   parse_strict_batch_all_or_nothing.2.1 ⟨[entryGood, entryBad]⟩ entryBad
     (by decide) (Or.inr (Or.inl rfl))⟩

/-- C5: a well-formed response with zero `entry` elements makes the
single-item parse return `None` without raising: "item not found" is a
non-exceptional outcome. -/
theorem parse_response_no_entries (feed : Feed) (h : feed.entries = []) :
    parseResponse (some feed) = Except.ok none := by
  simp [parseResponse, h]

/-- C5 witness: the empty feed. -/
theorem parse_response_no_entries_witness :
    (Feed.mk []).entries = [] ∧ parseResponse (some (Feed.mk [])) = Except.ok none :=
  ⟨rfl, parse_response_no_entries ⟨[]⟩ rfl⟩

/-! ## Documentation scraper model (docs_scraper.py)

A fetched HTML page is modelled by the results of the selector queries
`_scrape_page` / `_extract_breadcrumbs` / `_find_doc_links` perform:
`titleElem` is the text of the first match of `h1`/`title` (absent when
neither matches), `contentElem` the text of the main-content fallback
chain after `script`/`style`/`nav` removal, `breadcrumbLinks` the link
texts of the breadcrumb container (`none` when there is no container),
and `links` the `href` targets of the page's anchors, already resolved
against the page URL by `urljoin`, in document order. -/

structure Html where
  titleElem : Option String
  contentElem : Option String
  breadcrumbLinks : Option (List String)
  links : List Url
deriving DecidableEq, Repr

/-- `DocPage` dataclass of docs_scraper.py.  The Python field `section`
is a Lean keyword and is called `sectionName` here. -/
structure DocPage where
  url : Url
  title : String
  content : String
  sectionName : String
  subsection : Option String
  breadcrumbs : List String
deriving DecidableEq, Repr

/-- The network, as seen by one crawl: `none` models a fetch failure
(request exception or non-2xx status). -/
abbrev Site := Url → Option Html

/-- `DocsScraper.BASE_URL`'s network location. -/
def baseNetloc : String := "docs.monad.xyz"

/-- `DocsScraper._extract_breadcrumbs` (lines 139-153): the container's
link texts, or `[]` when no container matches. -/
def extractBreadcrumbs (h : Html) : List String :=
  h.breadcrumbLinks.getD []

/-- `DocsScraper._scrape_page` (lines 91-137): `none` on fetch failure;
otherwise title defaults to `'Untitled'`, content to `''`, section to
the first breadcrumb (default `'General'`), subsection to the second
breadcrumb if present. -/
def scrapePage (url : Url) (fetched : Option Html) : Option DocPage :=
  match fetched with
  | none => none
  | some h =>
    let breadcrumbs := extractBreadcrumbs h
    some
      { url := url,
        title := h.titleElem.getD "Untitled",
        content := h.contentElem.getD "",
        sectionName := breadcrumbs.headD "General",
        subsection := breadcrumbs[1]?,
        breadcrumbs := breadcrumbs }

/-- `DocsScraper._find_doc_links` (lines 155-178): re-fetch the page
(empty result on failure), then keep each anchor target whose netloc
equals `BASE_URL`'s netloc, whose URL contains no `'#'`, and which is
not in `visited`, in document order. -/
def findDocLinks (site : Site) (visited : List Url) (url : Url) : List Url :=
  match site url with
  | none => []
  | some h =>
    h.links.foldl
      (fun acc t =>
        if t.netloc == baseNetloc then
          if !urlHasHash t && !visited.contains t then acc ++ [t] else acc
        else acc) []

/-- C6: for every scraped page, `section` is the first breadcrumb label
(defaulting to `"General"` when the page has no breadcrumb container)
and `subsection` is the second label (or `none` when the trail has fewer
than two entries); breadcrumbs `["Docs","Getting Started"]` give
`section="Docs"`, `subsection="Getting Started"`. -/
theorem scrape_page_section_subsection (url : Url) (h : Html) (p : DocPage)
    (hp : scrapePage url (some h) = some p) :
    p.sectionName = (extractBreadcrumbs h).headD "General" ∧
    p.subsection = (extractBreadcrumbs h)[1]? ∧
    (∀ b bs, extractBreadcrumbs h = b :: bs → p.sectionName = b ∧ p.subsection = bs.head?) ∧
    (h.breadcrumbLinks = none → p.sectionName = "General" ∧ p.subsection = none) ∧
    (h.breadcrumbLinks = some ["Docs", "Getting Started"] →
      p.sectionName = "Docs" ∧ p.subsection = some "Getting Started") := by
  simp only [scrapePage, Option.some.injEq] at hp
  subst hp
  refine ⟨rfl, rfl, ?_, ?_, ?_⟩
  · intro b bs hb
    simp [hb]
    cases bs with
    | nil => simp
    | cons b2 bs2 => simp
  · intro hnone
    simp [extractBreadcrumbs, hnone]
  · intro hsome
    simp [extractBreadcrumbs, hsome]

/-- A page with no breadcrumb container. -/
def htmlNoBreadEx : Html :=
  { titleElem := some "Home", contentElem := some "welcome",
    breadcrumbLinks := none, links := [] }

def docsSeedUrl : Url :=
  { netloc := "docs.monad.xyz", path := "", fragment := none }

/-- C6 witness: the breadcrumb-free page yields section `"General"` and
no subsection. -/
theorem scrape_page_section_subsection_witness :
    scrapePage docsSeedUrl (some htmlNoBreadEx) =
      some { url := docsSeedUrl, title := "Home", content := "welcome",
             sectionName := "General", subsection := none, breadcrumbs := [] } ∧
    ({ url := docsSeedUrl, title := "Home", content := "welcome",
       sectionName := "General", subsection := none,
       breadcrumbs := [] } : DocPage).sectionName = "General" :=
  ⟨rfl, (scrape_page_section_subsection docsSeedUrl htmlNoBreadEx _ rfl).2.2.2.1 rfl |>.1⟩

/-- C4 (amended): a resolved link target is appended to the frontier if
and only if its netloc equals the scraper's fixed `BASE_URL` domain
`docs.monad.xyz` (not necessarily the seed's domain), its URL contains
no `'#'` at all (so a link with a fragment is dropped even when its path
is distinct from the current page's), and it is not already in
`visited`; order and multiplicity of the surviving links follow the
page's anchor order. -/
theorem find_doc_links_spec (site : Site) (visited : List Url) (url : Url) (h : Html)
    (hsite : site url = some h) :
    findDocLinks site visited url =
      h.links.filter (fun t => t.netloc == baseNetloc && (!urlHasHash t && !visited.contains t)) ∧
    (∀ t, t ∈ findDocLinks site visited url ↔
      t ∈ h.links ∧ t.netloc = baseNetloc ∧ t.fragment = none ∧ t ∉ visited) := by
  have hfn : (fun (acc : List Url) t =>
      if t.netloc == baseNetloc then
        if !urlHasHash t && !visited.contains t then acc ++ [t] else acc
      else acc) =
      (fun acc t =>
        if t.netloc == baseNetloc && (!urlHasHash t && !visited.contains t) then
          acc ++ [t] else acc) := by
    funext acc t
    by_cases h1 : t.netloc == baseNetloc
    · by_cases h2 : !urlHasHash t && !visited.contains t
      · simp [h1, h2]
      · simp [h1, h2]
    · simp [h1]
  have heq : findDocLinks site visited url =
      h.links.filter (fun t => t.netloc == baseNetloc && (!urlHasHash t && !visited.contains t)) := by
    simp only [findDocLinks, hsite, hfn]
    simpa using foldl_append_filter
      (fun t => t.netloc == baseNetloc && (!urlHasHash t && !visited.contains t)) h.links []
  refine ⟨heq, ?_⟩
  intro t
  rw [heq]
  simp only [List.mem_filter, Bool.and_eq_true, beq_iff_eq, Bool.not_eq_true']
  constructor
  · rintro ⟨hmem, hnet, hhash, hvis⟩
    refine ⟨hmem, hnet, ?_, ?_⟩
    · simpa [urlHasHash, Option.not_isSome, Option.isNone_iff_eq_none] using hhash
    · simpa using hvis
  · rintro ⟨hmem, hnet, hfrag, hvis⟩
    refine ⟨hmem, hnet, ?_, ?_⟩
    · simp [urlHasHash, hfrag]
    · simpa using hvis

/-! C4 counterexample material: a fragment link with a distinct path,
and a seed whose domain differs from `BASE_URL`'s. -/

def guideFragUrl : Url :=
  { netloc := "docs.monad.xyz", path := "/guide", fragment := some "intro" }

def htmlDocsHome : Html :=
  { titleElem := some "Home", contentElem := some "home",
    breadcrumbLinks := none, links := [guideFragUrl] }

def siteFragOnly : Site :=
  fun u => if u = docsSeedUrl then some htmlDocsHome else none

def extSeedUrl : Url :=
  { netloc := "example.com", path := "/", fragment := none }

def docsXUrl : Url :=
  { netloc := "docs.monad.xyz", path := "/x", fragment := none }

def htmlExtSeed : Html :=
  { titleElem := some "Ext", contentElem := some "ext",
    breadcrumbLinks := none, links := [docsXUrl] }

def siteExtSeed : Site :=
  fun u => if u = extSeedUrl then some htmlExtSeed else none

/-- C4 counterexample: (1) a same-domain link with a distinct path and a
fragment — by the claim it should be appended (it is not anchor-only),
but the code drops it because its URL contains `'#'`; (2) with a seed on
`example.com`, a link to `docs.monad.xyz` — by the claim it should be
dropped (its domain differs from the seed's), but the code keeps it
because the filter compares against the fixed `BASE_URL` domain. -/
theorem find_doc_links_cx :
    (findDocLinks siteFragOnly [] docsSeedUrl = [] ∧
      guideFragUrl ∈ htmlDocsHome.links ∧
      guideFragUrl.netloc = docsSeedUrl.netloc ∧
      guideFragUrl.path ≠ docsSeedUrl.path ∧
      guideFragUrl.fragment = some "intro" ∧
      guideFragUrl ∉ ([] : List Url)) ∧
    (findDocLinks siteExtSeed [] extSeedUrl = [docsXUrl] ∧
      docsXUrl.netloc ≠ extSeedUrl.netloc) := by
  refine ⟨⟨rfl, ?_, rfl, ?_, rfl, ?_⟩, rfl, ?_⟩ <;> decide

/-- C4 witness: the amended filter characterization at a concrete site. -/
theorem find_doc_links_witness :
    siteExtSeed extSeedUrl = some htmlExtSeed ∧
    (findDocLinks siteExtSeed [] extSeedUrl =
      htmlExtSeed.links.filter
        (fun t => t.netloc == baseNetloc && (!urlHasHash t && !([] : List Url).contains t)) ∧
    (∀ t, t ∈ findDocLinks siteExtSeed [] extSeedUrl ↔
      t ∈ htmlExtSeed.links ∧ t.netloc = baseNetloc ∧ t.fragment = none ∧ t ∉ ([] : List Url))) :=
  ⟨rfl, find_doc_links_spec siteExtSeed [] extSeedUrl htmlExtSeed rfl⟩

/-! ## The crawl loop (DocsScraper.scrape_docs, lines 53-89)

The `while urls_to_visit` loop, with an explicit fuel argument; `none`
means the fuel ran out with work still pending.  The result carries the
accumulated pages, the visited list (in insertion order), and the number
of HTTP GETs issued: `_scrape_page` costs one GET, and a successful page
additionally triggers the second GET of `_find_doc_links`. -/

def scrapeDocsAux (site : Site) :
    Nat → List Url → List Url → List DocPage → Nat →
    Option (List DocPage × List Url × Nat)
  | _, [], visited, pages, fetches => some (pages, visited, fetches)
  | 0, _ :: _, _, _, _ => none
  | fuel + 1, url :: rest, visited, pages, fetches =>
    if visited.contains url then
      scrapeDocsAux site fuel rest visited pages fetches
    else
      match scrapePage url (site url) with
      | some page =>
        scrapeDocsAux site fuel (rest ++ findDocLinks site (visited ++ [url]) url)
          (visited ++ [url]) (pages ++ [page]) (fetches + 2)
      | none => scrapeDocsAux site fuel rest visited pages (fetches + 1)

/-- `DocsScraper.scrape_docs`: fresh scraper state, one seed. -/
def scrapeDocs (site : Site) (seed : Url) (fuel : Nat) :
    Option (List DocPage × List Url × Nat) :=
  scrapeDocsAux site fuel [seed] [] [] 0

theorem scrapeDocsAux_nil (site : Site) (fuel : Nat) (visited : List Url)
    (pages : List DocPage) (fetches : Nat) :
    scrapeDocsAux site fuel [] visited pages fetches = some (pages, visited, fetches) := by
  cases fuel <;> rfl

theorem scrapeDocsAux_zero_cons (site : Site) (url : Url) (rest visited : List Url)
    (pages : List DocPage) (fetches : Nat) :
    scrapeDocsAux site 0 (url :: rest) visited pages fetches = none := rfl

theorem scrapeDocsAux_succ_cons (site : Site) (fuel : Nat) (url : Url)
    (rest visited : List Url) (pages : List DocPage) (fetches : Nat) :
    scrapeDocsAux site (fuel + 1) (url :: rest) visited pages fetches =
      if visited.contains url then
        scrapeDocsAux site fuel rest visited pages fetches
      else
        match scrapePage url (site url) with
        | some page =>
          scrapeDocsAux site fuel (rest ++ findDocLinks site (visited ++ [url]) url)
            (visited ++ [url]) (pages ++ [page]) (fetches + 2)
        | none => scrapeDocsAux site fuel rest visited pages (fetches + 1) := rfl

theorem scrapePage_url_eq (url : Url) (o : Option Html) (p : DocPage)
    (hp : scrapePage url o = some p) : p.url = url := by
  cases o with
  | none => cases hp
  | some h =>
    simp only [scrapePage, Option.some.injEq] at hp
    subst hp
    rfl

/-- Every successful run appends to `pages` and `visited` in lock-step:
the new visited URLs are exactly the URLs of the new records, fresh and
pairwise distinct. -/
theorem scrapeDocsAux_run (site : Site) (fuel : Nat) :
    ∀ pending visited pages fetches pagesF visitedF fetchesF,
      scrapeDocsAux site fuel pending visited pages fetches =
        some (pagesF, visitedF, fetchesF) →
      ∃ newPages : List DocPage,
        pagesF = pages ++ newPages ∧
        visitedF = visited ++ newPages.map DocPage.url ∧
        (∀ u ∈ newPages.map DocPage.url, u ∉ visited) ∧
        (newPages.map DocPage.url).Nodup := by
  induction fuel with
  | zero =>
    intro pending visited pages fetches pagesF visitedF fetchesF hrun
    cases pending with
    | nil =>
      rw [scrapeDocsAux_nil] at hrun
      obtain ⟨rfl, rfl, rfl⟩ : pages = pagesF ∧ visited = visitedF ∧ fetches = fetchesF := by
        simpa using hrun
      exact ⟨[], by simp, by simp, by simp, by simp⟩
    | cons u rest =>
      rw [scrapeDocsAux_zero_cons] at hrun
      cases hrun
  | succ fuel ih =>
    intro pending visited pages fetches pagesF visitedF fetchesF hrun
    cases pending with
    | nil =>
      rw [scrapeDocsAux_nil] at hrun
      obtain ⟨rfl, rfl, rfl⟩ : pages = pagesF ∧ visited = visitedF ∧ fetches = fetchesF := by
        simpa using hrun
      exact ⟨[], by simp, by simp, by simp, by simp⟩
    | cons url rest =>
      rw [scrapeDocsAux_succ_cons] at hrun
      by_cases hv : url ∈ visited
      · rw [if_pos (by simpa using hv)] at hrun
        exact ih _ _ _ _ _ _ _ hrun
      · rw [if_neg (by simpa using hv)] at hrun
        cases hsp : scrapePage url (site url) with
        | none =>
          rw [hsp] at hrun
          exact ih _ _ _ _ _ _ _ hrun
        | some page =>
          rw [hsp] at hrun
          obtain ⟨newP, h1, h2, h3, h4⟩ := ih _ _ _ _ _ _ _ hrun
          have hpu : page.url = url := scrapePage_url_eq url (site url) page hsp
          refine ⟨page :: newP, by simp [h1], ?_, ?_, ?_⟩
          · simp only [List.map_cons, hpu]
            rw [h2]
            simp
          · intro u hu
            simp only [List.map_cons, hpu, List.mem_cons] at hu
            rcases hu with rfl | hu
            · exact hv
            · intro hmem
              exact h3 u hu (by simp [hmem])
          · simp only [List.map_cons, List.nodup_cons, hpu]
            refine ⟨?_, h4⟩
            intro hmem
            exact h3 url hmem (by simp)

/-- C9: the URLs of the returned records are pairwise distinct and are
exactly the URLs added to `visited` during the crawl — each visited URL
corresponds to exactly one returned record — and this correspondence is
an invariant of the loop: any iteration state whose accumulated pages
match its visited list (with no duplicates) completes to a final state
with the same property, the final visited list being the initial one
extended by exactly the URLs of the newly returned records. -/
theorem scrape_docs_visited_record_invariant (site : Site) (fuel : Nat)
    (pending visited : List Url) (pages : List DocPage) (fetches : Nat)
    (pagesF : List DocPage) (visitedF : List Url) (fetchesF : Nat)
    (hnodup : visited.Nodup) (hcorr : pages.map DocPage.url = visited)
    (hrun : scrapeDocsAux site fuel pending visited pages fetches =
      some (pagesF, visitedF, fetchesF)) :
    pagesF.map DocPage.url = visitedF ∧ visitedF.Nodup ∧
    ∃ newPages, pagesF = pages ++ newPages ∧
      visitedF = visited ++ newPages.map DocPage.url := by
  obtain ⟨newP, h1, h2, h3, h4⟩ :=
    scrapeDocsAux_run site fuel pending visited pages fetches pagesF visitedF fetchesF hrun
  refine ⟨?_, ?_, newP, h1, h2⟩
  · rw [h1, List.map_append, hcorr, h2]
  · rw [h2]
    refine List.nodup_append.mpr ⟨hnodup, h4, ?_⟩
    intro a ha hamem
    exact h3 a hamem ha

/-! ## Reachability in the filtered link graph (C1)

`Edge site u v` holds when page `u` fetches successfully and carries an
anchor to `v` that survives the domain and fragment filters of
`_find_doc_links` (the `visited` test is stateful and does not belong to
the graph). -/

def Edge (site : Site) (u v : Url) : Prop :=
  ∃ hdoc, site u = some hdoc ∧ v ∈ hdoc.links ∧
    v.netloc = baseNetloc ∧ v.fragment = none

def Reach (site : Site) (seed : Url) (v : Url) : Prop :=
  Relation.ReflTransGen (Edge site) seed v

theorem reach_mem_univ (site : Site) (seed : Url) (univ : List Url)
    (hseed : seed ∈ univ) (hclosed : ∀ u v, Edge site u v → v ∈ univ) :
    ∀ v, Reach site seed v → v ∈ univ := by
  intro v hv
  induction hv with
  | refl => exact hseed
  | tail _ hbc _ => exact hclosed _ _ hbc

theorem reach_subset_of_closed (site : Site) (seed : Url) (visitedF : List Url)
    (hseedm : seed ∈ visitedF)
    (hcl : ∀ u, u ∈ visitedF → ∀ v, Edge site u v → v ∈ visitedF) :
    ∀ v, Reach site seed v → v ∈ visitedF := by
  intro v hv
  induction hv with
  | refl => exact hseedm
  | tail _ hbc ih => exact hcl _ ih _ hbc

theorem findDocLinks_eq_filter (site : Site) (visited : List Url) (url : Url)
    (hdoc : Html) (hsite : site url = some hdoc) :
    findDocLinks site visited url =
      hdoc.links.filter
        (fun t => t.netloc == baseNetloc && (!urlHasHash t && !visited.contains t)) := by
  have hfn : (fun (acc : List Url) t =>
      if t.netloc == baseNetloc then
        if !urlHasHash t && !visited.contains t then acc ++ [t] else acc
      else acc) =
      (fun acc t =>
        if t.netloc == baseNetloc && (!urlHasHash t && !visited.contains t) then
          acc ++ [t] else acc) := by
    funext acc t
    by_cases h1 : t.netloc == baseNetloc
    · by_cases h2 : !urlHasHash t && !visited.contains t
      · simp [h1, h2]
      · simp [h1, h2]
    · simp [h1]
  simp only [findDocLinks, hsite, hfn]
  simpa using foldl_append_filter
    (fun t => t.netloc == baseNetloc && (!urlHasHash t && !visited.contains t)) hdoc.links []

theorem mem_findDocLinks (site : Site) (visited : List Url) (url : Url)
    (hdoc : Html) (hsite : site url = some hdoc) (t : Url) :
    t ∈ findDocLinks site visited url ↔
      t ∈ hdoc.links ∧ t.netloc = baseNetloc ∧ t.fragment = none ∧ t ∉ visited := by
  rw [findDocLinks_eq_filter site visited url hdoc hsite]
  simp only [List.mem_filter, Bool.and_eq_true, beq_iff_eq, Bool.not_eq_true']
  constructor
  · rintro ⟨hmem, hnet, hhash, hvis⟩
    refine ⟨hmem, hnet, ?_, ?_⟩
    · simpa [urlHasHash, Option.not_isSome, Option.isNone_iff_eq_none] using hhash
    · simpa using hvis
  · rintro ⟨hmem, hnet, hfrag, hvis⟩
    refine ⟨hmem, hnet, ?_, ?_⟩
    · simp [urlHasHash, hfrag]
    · simpa using hvis

theorem findDocLinks_length_le (site : Site) (visited : List Url) (url : Url)
    (hdoc : Html) (hsite : site url = some hdoc) :
    (findDocLinks site visited url).length ≤ hdoc.links.length := by
  rw [findDocLinks_eq_filter site visited url hdoc hsite]
  exact List.length_filter_le _ _

/-! ## The crawl-loop invariant -/

structure CrawlInv (site : Site) (seed : Url) (pending visited : List Url) : Prop where
  nodup : visited.Nodup
  vis_reach : ∀ v, v ∈ visited → Reach site seed v
  pend_reach : ∀ v, v ∈ pending → Reach site seed v
  seed_mem : seed ∈ visited ∨ seed ∈ pending
  closure : ∀ u, u ∈ visited → ∀ v, Edge site u v → v ∈ visited ∨ v ∈ pending

theorem crawlInv_init (site : Site) (seed : Url) : CrawlInv site seed [seed] [] where
  nodup := List.nodup_nil
  vis_reach := by intro v hv; cases hv
  pend_reach := by
    intro v hv
    rw [List.mem_singleton] at hv
    subst hv
    exact Relation.ReflTransGen.refl
  seed_mem := Or.inr (by simp)
  closure := by intro u hu; cases hu

theorem crawlInv_skip (site : Site) (seed url : Url) (rest visited : List Url)
    (inv : CrawlInv site seed (url :: rest) visited) (hv : url ∈ visited) :
    CrawlInv site seed rest visited where
  nodup := inv.nodup
  vis_reach := inv.vis_reach
  pend_reach := fun v hv2 => inv.pend_reach v (List.mem_cons_of_mem _ hv2)
  seed_mem := by
    rcases inv.seed_mem with h | h
    · exact Or.inl h
    · rcases List.mem_cons.mp h with rfl | h2
      · exact Or.inl hv
      · exact Or.inr h2
  closure := by
    intro u hu v hE
    rcases inv.closure u hu v hE with h | h
    · exact Or.inl h
    · rcases List.mem_cons.mp h with rfl | h2
      · exact Or.inl hv
      · exact Or.inr h2

theorem crawlInv_settle (site : Site) (seed url : Url) (rest visited : List Url)
    (hdoc : Html) (inv : CrawlInv site seed (url :: rest) visited)
    (hv : url ∉ visited) (hsite : site url = some hdoc) :
    CrawlInv site seed (rest ++ findDocLinks site (visited ++ [url]) url)
      (visited ++ [url]) where
  nodup := by
    rw [List.nodup_append]
    refine ⟨inv.nodup, List.nodup_singleton url, ?_⟩
    intro a ha hb
    rw [List.mem_singleton] at hb
    subst hb
    exact hv ha
  vis_reach := by
    intro v hv2
    rcases List.mem_append.mp hv2 with h2 | h2
    · exact inv.vis_reach v h2
    · rw [List.mem_singleton] at h2
      subst h2
      exact inv.pend_reach v (List.mem_cons_self _ _)
  pend_reach := by
    intro v hv2
    rcases List.mem_append.mp hv2 with h2 | h2
    · exact inv.pend_reach v (List.mem_cons_of_mem _ h2)
    · have hmem := (mem_findDocLinks site (visited ++ [url]) url hdoc hsite v).mp h2
      have hru : Reach site seed url := inv.pend_reach url (List.mem_cons_self _ _)
      exact Relation.ReflTransGen.tail hru ⟨hdoc, hsite, hmem.1, hmem.2.1, hmem.2.2.1⟩
  seed_mem := by
    rcases inv.seed_mem with h2 | h2
    · exact Or.inl (List.mem_append.mpr (Or.inl h2))
    · rcases List.mem_cons.mp h2 with rfl | h3
      · exact Or.inl (by simp)
      · exact Or.inr (List.mem_append.mpr (Or.inl h3))
  closure := by
    intro u hu v hE
    rcases List.mem_append.mp hu with h2 | h2
    · rcases inv.closure u h2 v hE with h3 | h3
      · exact Or.inl (List.mem_append.mpr (Or.inl h3))
      · rcases List.mem_cons.mp h3 with rfl | h4
        · exact Or.inl (by simp)
        · exact Or.inr (List.mem_append.mpr (Or.inl h4))
    · rw [List.mem_singleton] at h2
      subst h2
      obtain ⟨hdoc2, hsite2, hlink, hnet, hfrag⟩ := hE
      rw [hsite] at hsite2
      have hdd : hdoc = hdoc2 := by
        injection hsite2
      subst hdd
      by_cases hvis2 : v ∈ visited ++ [u]
      · exact Or.inl hvis2
      · refine Or.inr (List.mem_append.mpr (Or.inr ?_))
        exact (mem_findDocLinks site (visited ++ [u]) u hdoc hsite v).mpr
          ⟨hlink, hnet, hfrag, hvis2⟩

theorem card_sdiff_concat {A B : Finset Url} {u : Url} (hA : u ∈ A) (hB : u ∉ B) :
    (A \ (B ∪ {u})).card + 1 = (A \ B).card := by
  have h1 : A \ (B ∪ {u}) = (A \ B).erase u := by
    ext x
    simp only [Finset.mem_sdiff, Finset.mem_erase, Finset.mem_union, Finset.mem_singleton]
    tauto
  rw [h1]
  have hmem : u ∈ A \ B := Finset.mem_sdiff.mpr ⟨hA, hB⟩
  rw [Finset.card_erase_of_mem hmem]
  have hpos : 0 < (A \ B).card := Finset.card_pos.mpr ⟨u, hmem⟩
  omega

/-- Fuel adequacy: the standard worklist measure bounds the number of
loop iterations, so enough fuel always completes the crawl. -/
theorem scrapeDocsAux_adequate (site : Site) (seed : Url) (univ : List Url) (L : Nat)
    (hseed : seed ∈ univ)
    (hclosed : ∀ u v, Edge site u v → v ∈ univ)
    (hsucc : ∀ u, Reach site seed u → (site u).isSome = true)
    (hL : ∀ u hdoc, site u = some hdoc → hdoc.links.length ≤ L) :
    ∀ fuel pending visited pages fetches,
      CrawlInv site seed pending visited →
      (univ.toFinset \ visited.toFinset).card * (L + 1) + pending.length ≤ fuel →
      (scrapeDocsAux site fuel pending visited pages fetches).isSome = true := by
  intro fuel
  induction fuel with
  | zero =>
    intro pending visited pages fetches inv hm
    cases pending with
    | nil => rw [scrapeDocsAux_nil]; rfl
    | cons u rest =>
      simp only [List.length_cons] at hm
      omega
  | succ fuel ih =>
    intro pending visited pages fetches inv hm
    cases pending with
    | nil => rw [scrapeDocsAux_nil]; rfl
    | cons url rest =>
      rw [scrapeDocsAux_succ_cons]
      by_cases hv : url ∈ visited
      · rw [if_pos (by simpa using hv)]
        refine ih rest visited pages fetches (crawlInv_skip site seed url rest visited inv hv) ?_
        simp only [List.length_cons] at hm
        omega
      · rw [if_neg (by simpa using hv)]
        have hreach : Reach site seed url := inv.pend_reach url (List.mem_cons_self _ _)
        have hsome := hsucc url hreach
        obtain ⟨hdoc, hsite⟩ : ∃ hdoc, site url = some hdoc := by
          cases hs : site url with
          | none => rw [hs] at hsome; cases hsome
          | some d => exact ⟨d, rfl⟩
        rw [hsite]
        simp only [scrapePage]
        refine ih _ _ _ _
          (crawlInv_settle site seed url rest visited hdoc inv hv hsite) ?_
        have huniv : url ∈ univ :=
          reach_mem_univ site seed univ hseed hclosed url hreach
        have hcard : (univ.toFinset \ (visited ++ [url]).toFinset).card + 1 =
            (univ.toFinset \ visited.toFinset).card := by
          have h := card_sdiff_concat (A := univ.toFinset) (B := visited.toFinset)
            (u := url) (by simpa using huniv) (by simpa using hv)
          simpa [List.toFinset_append] using h
        have hlinks : (findDocLinks site (visited ++ [url]) url).length ≤ L :=
          le_trans (findDocLinks_length_le site (visited ++ [url]) url hdoc hsite)
            (hL url hdoc hsite)
        rw [← hcard] at hm
        simp only [List.length_cons, List.length_append] at hm ⊢
        have hexp : ((univ.toFinset \ (visited ++ [url]).toFinset).card + 1) * (L + 1) =
            (univ.toFinset \ (visited ++ [url]).toFinset).card * (L + 1) + (L + 1) := by
          ring
        omega

/-- Partial correctness of a completed run: the final state satisfies
the invariant with an empty frontier, and pages, visited URLs and the
fetch counter advance in lock-step (two GETs per newly visited page). -/
theorem scrapeDocsAux_post (site : Site) (seed : Url)
    (hsucc : ∀ u, Reach site seed u → (site u).isSome = true) :
    ∀ fuel pending visited pages fetches pagesF visitedF fetchesF,
      CrawlInv site seed pending visited →
      scrapeDocsAux site fuel pending visited pages fetches =
        some (pagesF, visitedF, fetchesF) →
      CrawlInv site seed [] visitedF ∧
      ∃ newPages : List DocPage,
        pagesF = pages ++ newPages ∧
        visitedF = visited ++ newPages.map DocPage.url ∧
        fetchesF = fetches + 2 * newPages.length := by
  intro fuel
  induction fuel with
  | zero =>
    intro pending visited pages fetches pagesF visitedF fetchesF inv hrun
    cases pending with
    | nil =>
      rw [scrapeDocsAux_nil] at hrun
      obtain ⟨rfl, rfl, rfl⟩ : pages = pagesF ∧ visited = visitedF ∧ fetches = fetchesF := by
        simpa using hrun
      exact ⟨inv, [], by simp, by simp, by simp⟩
    | cons u rest =>
      rw [scrapeDocsAux_zero_cons] at hrun
      cases hrun
  | succ fuel ih =>
    intro pending visited pages fetches pagesF visitedF fetchesF inv hrun
    cases pending with
    | nil =>
      rw [scrapeDocsAux_nil] at hrun
      obtain ⟨rfl, rfl, rfl⟩ : pages = pagesF ∧ visited = visitedF ∧ fetches = fetchesF := by
        simpa using hrun
      exact ⟨inv, [], by simp, by simp, by simp⟩
    | cons url rest =>
      rw [scrapeDocsAux_succ_cons] at hrun
      by_cases hv : url ∈ visited
      · rw [if_pos (by simpa using hv)] at hrun
        exact ih _ _ _ _ _ _ _ (crawlInv_skip site seed url rest visited inv hv) hrun
      · rw [if_neg (by simpa using hv)] at hrun
        have hreach : Reach site seed url := inv.pend_reach url (List.mem_cons_self _ _)
        have hsome := hsucc url hreach
        obtain ⟨hdoc, hsite⟩ : ∃ hdoc, site url = some hdoc := by
          cases hs : site url with
          | none => rw [hs] at hsome; cases hsome
          | some d => exact ⟨d, rfl⟩
        rw [hsite] at hrun
        simp only [scrapePage] at hrun
        obtain ⟨hfin, newP, h1, h2, h3⟩ := ih _ _ _ _ _ _ _
          (crawlInv_settle site seed url rest visited hdoc inv hv hsite) hrun
        refine ⟨hfin, ?_ :: newP, ?_, ?_, ?_⟩
        · exact { url := url, title := hdoc.titleElem.getD "Untitled",
                  content := hdoc.contentElem.getD "",
                  sectionName := (extractBreadcrumbs hdoc).headD "General",
                  subsection := (extractBreadcrumbs hdoc)[1]?,
                  breadcrumbs := extractBreadcrumbs hdoc }
        · rw [h1]
          simp
        · rw [h2]
          simp
        · rw [h3]
          simp only [List.length_cons]
          omega

/-- More fuel never changes a completed run's outcome. -/
theorem scrapeDocsAux_mono (site : Site) :
    ∀ fuel fuel2, fuel ≤ fuel2 →
    ∀ pending visited pages fetches out,
      scrapeDocsAux site fuel pending visited pages fetches = some out →
      scrapeDocsAux site fuel2 pending visited pages fetches = some out := by
  intro fuel
  induction fuel with
  | zero =>
    intro fuel2 hle pending visited pages fetches out h
    cases pending with
    | nil =>
      rw [scrapeDocsAux_nil] at h
      rw [scrapeDocsAux_nil]
      exact h
    | cons u rest =>
      rw [scrapeDocsAux_zero_cons] at h
      cases h
  | succ fuel ih =>
    intro fuel2 hle pending visited pages fetches out h
    cases pending with
    | nil =>
      rw [scrapeDocsAux_nil] at h
      rw [scrapeDocsAux_nil]
      exact h
    | cons url rest =>
      obtain ⟨fuel2x, rfl⟩ : ∃ f2, fuel2 = f2 + 1 := ⟨fuel2 - 1, by omega⟩
      have hle2 : fuel ≤ fuel2x := by omega
      rw [scrapeDocsAux_succ_cons] at h
      rw [scrapeDocsAux_succ_cons]
      by_cases hv : visited.contains url
      · rw [if_pos hv] at h
        rw [if_pos hv]
        exact ih fuel2x hle2 _ _ _ _ _ h
      · rw [if_neg hv] at h
        rw [if_neg hv]
        cases hsp : scrapePage url (site url) with
        | some page =>
          rw [hsp] at h
          exact ih fuel2x hle2 _ _ _ _ _ h
        | none =>
          rw [hsp] at h
          exact ih fuel2x hle2 _ _ _ _ _ h

/-- C1 (amended): on every finite same-domain link graph whose reachable
pages all fetch successfully, the crawl terminates (some fuel completes
it and more fuel returns the same result), visits each reachable page
exactly once (the visited list is duplicate-free and holds exactly the
reachable URLs), returns one `DocPage` per reachable page, and issues
exactly `2 * N` HTTP GETs for `N` reachable pages: each visited page is
fetched once by `_scrape_page` and once more by `_find_doc_links`. -/
theorem scrape_docs_crawl_spec (site : Site) (seed : Url) (univ : List Url) (L : Nat)
    (hseed : seed ∈ univ)
    (hclosed : ∀ u v, Edge site u v → v ∈ univ)
    (hsucc : ∀ u, Reach site seed u → (site u).isSome = true)
    (hL : ∀ u hdoc, site u = some hdoc → hdoc.links.length ≤ L) :
    ∃ fuel pages visitedF,
      scrapeDocs site seed fuel = some (pages, visitedF, 2 * visitedF.length) ∧
      (∀ fuel2, fuel ≤ fuel2 →
        scrapeDocs site seed fuel2 = some (pages, visitedF, 2 * visitedF.length)) ∧
      visitedF.Nodup ∧
      (∀ v, v ∈ visitedF ↔ Reach site seed v) ∧
      pages.map DocPage.url = visitedF := by
  have hinit : CrawlInv site seed [seed] [] := crawlInv_init site seed
  have hadq := scrapeDocsAux_adequate site seed univ L hseed hclosed hsucc hL
    (univ.toFinset.card * (L + 1) + 1) [seed] [] [] 0 hinit (by simp)
  obtain ⟨out, hout⟩ : ∃ out,
      scrapeDocsAux site (univ.toFinset.card * (L + 1) + 1) [seed] [] [] 0 = some out := by
    cases hq : scrapeDocsAux site (univ.toFinset.card * (L + 1) + 1) [seed] [] [] 0 with
    | none => rw [hq] at hadq; cases hadq
    | some o => exact ⟨o, rfl⟩
  obtain ⟨pagesF, visitedF, fetchesF⟩ := out
  obtain ⟨hfin, newP, hp1, hp2, hp3⟩ := scrapeDocsAux_post site seed hsucc
    (univ.toFinset.card * (L + 1) + 1) [seed] [] [] 0 pagesF visitedF fetchesF hinit hout
  have hseedF : seed ∈ visitedF := by
    rcases hfin.seed_mem with h | h
    · exact h
    · cases h
  have hiff : ∀ v, v ∈ visitedF ↔ Reach site seed v := by
    intro v
    constructor
    · exact hfin.vis_reach v
    · refine reach_subset_of_closed site seed visitedF hseedF ?_ v
      intro u hu w hE
      rcases hfin.closure u hu w hE with h | h
      · exact h
      · cases h
  have hmap : pagesF.map DocPage.url = visitedF := by
    rw [hp1, hp2]
    simp
  have hfet : fetchesF = 2 * visitedF.length := by
    rw [hp3, hp2]
    simp
  rw [hfet] at hout
  refine ⟨univ.toFinset.card * (L + 1) + 1, pagesF, visitedF, hout, ?_, hfin.nodup, hiff, hmap⟩
  intro fuel2 hle
  exact scrapeDocsAux_mono site _ fuel2 hle _ _ _ _ _ hout

/-! Concrete sites: a single page with no links, and a three-page site
with cross-links and cycles back to the seed. -/

def urlSolo : Url := { netloc := "docs.monad.xyz", path := "/solo", fragment := none }

def htmlSolo : Html :=
  { titleElem := some "Solo", contentElem := some "solo",
    breadcrumbLinks := none, links := [] }

def siteSolo : Site := fun u => if u = urlSolo then some htmlSolo else none

def pageSolo : DocPage :=
  { url := urlSolo, title := "Solo", content := "solo",
    sectionName := "General", subsection := none, breadcrumbs := [] }

/-- C1 counterexample: the claim as frozen says the crawl performs
exactly `N` fetches for `N` reachable pages.  On a one-page site
(`N = 1`) the completed crawl issues 2 HTTP GETs — `_scrape_page`
fetches the page and `_find_doc_links` fetches it again — so the
fetch count is `2 * N`, not `N`. -/
theorem scrape_docs_two_fetches_cx :
    scrapeDocs siteSolo urlSolo 2 = some ([pageSolo], [urlSolo], 2) ∧
    ([urlSolo] : List Url).length = 1 ∧ (2 : Nat) ≠ 1 :=
  ⟨rfl, rfl, by decide⟩

def urlDocsA : Url := { netloc := "docs.monad.xyz", path := "/a", fragment := none }

def urlDocsB : Url := { netloc := "docs.monad.xyz", path := "/b", fragment := none }

def urlDocsC : Url := { netloc := "docs.monad.xyz", path := "/c", fragment := none }

def htmlCycleA : Html :=
  { titleElem := some "A", contentElem := some "a",
    breadcrumbLinks := some ["Docs", "A"], links := [urlDocsB, urlDocsC, urlDocsA] }

def htmlCycleB : Html :=
  { titleElem := some "B", contentElem := some "b",
    breadcrumbLinks := none, links := [urlDocsA, urlDocsC] }

def htmlCycleC : Html :=
  { titleElem := some "C", contentElem := some "c",
    breadcrumbLinks := none, links := [] }

def siteCycle : Site :=
  fun u =>
    if u = urlDocsA then some htmlCycleA
    else if u = urlDocsB then some htmlCycleB
    else if u = urlDocsC then some htmlCycleC
    else none

def cycleUniv : List Url := [urlDocsA, urlDocsB, urlDocsC]

def pageCycleA : DocPage :=
  { url := urlDocsA, title := "A", content := "a", sectionName := "Docs",
    subsection := some "A", breadcrumbs := ["Docs", "A"] }

def pageCycleB : DocPage :=
  { url := urlDocsB, title := "B", content := "b", sectionName := "General",
    subsection := none, breadcrumbs := [] }

def pageCycleC : DocPage :=
  { url := urlDocsC, title := "C", content := "c", sectionName := "General",
    subsection := none, breadcrumbs := [] }

theorem siteCycle_closed : ∀ u v, Edge siteCycle u v → v ∈ cycleUniv := by
  intro u v hE
  obtain ⟨hdoc, hs, hl, -, -⟩ := hE
  simp only [siteCycle] at hs
  split_ifs at hs with h1 h2 h3
  · obtain rfl : htmlCycleA = hdoc := by simpa using hs
    have hv : v = urlDocsB ∨ v = urlDocsC ∨ v = urlDocsA := by
      simpa [htmlCycleA] using hl
    rcases hv with rfl | rfl | rfl <;> simp [cycleUniv]
  · obtain rfl : htmlCycleB = hdoc := by simpa using hs
    have hv : v = urlDocsA ∨ v = urlDocsC := by
      simpa [htmlCycleB] using hl
    rcases hv with rfl | rfl <;> simp [cycleUniv]
  · obtain rfl : htmlCycleC = hdoc := by simpa using hs
    simp [htmlCycleC] at hl

theorem siteCycle_succeeds : ∀ u, Reach siteCycle urlDocsA u →
    (siteCycle u).isSome = true := by
  intro u hr
  have hu : u ∈ cycleUniv :=
    reach_mem_univ siteCycle urlDocsA cycleUniv (by decide) siteCycle_closed u hr
  have hu2 : u = urlDocsA ∨ u = urlDocsB ∨ u = urlDocsC := by
    simpa [cycleUniv] using hu
  rcases hu2 with rfl | rfl | rfl <;> decide

theorem siteCycle_link_bound : ∀ u hdoc, siteCycle u = some hdoc →
    hdoc.links.length ≤ 3 := by
  intro u hdoc hs
  simp only [siteCycle] at hs
  split_ifs at hs with h1 h2 h3
  · obtain rfl : htmlCycleA = hdoc := by simpa using hs
    decide
  · obtain rfl : htmlCycleB = hdoc := by simpa using hs
    decide
  · obtain rfl : htmlCycleC = hdoc := by simpa using hs
    decide

/-- C1 witness: the three-page site with cross-links and a cycle back to
the seed satisfies every hypothesis, and the crawl completes on it. -/
theorem scrape_docs_crawl_spec_witness :
    urlDocsA ∈ cycleUniv ∧
    (∃ fuel pages visitedF,
      scrapeDocs siteCycle urlDocsA fuel = some (pages, visitedF, 2 * visitedF.length) ∧
      (∀ fuel2, fuel ≤ fuel2 →
        scrapeDocs siteCycle urlDocsA fuel2 = some (pages, visitedF, 2 * visitedF.length)) ∧
      visitedF.Nodup ∧
      (∀ v, v ∈ visitedF ↔ Reach siteCycle urlDocsA v) ∧
      pages.map DocPage.url = visitedF) :=
  ⟨by decide,
   scrape_docs_crawl_spec siteCycle urlDocsA cycleUniv 3 (by decide)
     siteCycle_closed siteCycle_succeeds siteCycle_link_bound⟩

/-- C9 witness: a concrete completed crawl on the three-page site — the
record/visited correspondence holds from the empty initial state. -/
theorem scrape_docs_visited_record_invariant_witness :
    ([] : List Url).Nodup ∧
    ([] : List DocPage).map DocPage.url = ([] : List Url) ∧
    (([pageCycleA, pageCycleB, pageCycleC] : List DocPage).map DocPage.url =
        [urlDocsA, urlDocsB, urlDocsC] ∧
      ([urlDocsA, urlDocsB, urlDocsC] : List Url).Nodup ∧
      ∃ newPages,
        ([pageCycleA, pageCycleB, pageCycleC] : List DocPage) = [] ++ newPages ∧
        ([urlDocsA, urlDocsB, urlDocsC] : List Url) = [] ++ newPages.map DocPage.url) :=
  ⟨List.nodup_nil, rfl,
   scrape_docs_visited_record_invariant siteCycle 10 [urlDocsA] [] [] 0
     [pageCycleA, pageCycleB, pageCycleC] [urlDocsA, urlDocsB, urlDocsC] 6
     List.nodup_nil rfl rfl⟩

/-! ## Persistence layer (save_metadata / save_post / save_page)

The output directory is modelled as an association list from filenames
to saved records; `open(path, 'w')` + `json.dump` either overwrites the
entry at an existing path or creates a new one. -/

abbrev Store (α : Type) := List (String × α)

def writeFile {α : Type} (store : Store α) (path : String) (content : α) : Store α :=
  if store.any (fun e => e.1 == path) then
    store.map (fun e => if e.1 == path then (path, content) else e)
  else store ++ [(path, content)]

/-- `post.title.lower().replace(' ', '_')[:50]` of `save_post`. -/
def titleSlug (t : String) : String :=
  String.mk ((replaceChar (pyLower t) ' ' '_').toList.take 50)

/-- The filename of `BlogScraper.save_post` (lines 191-199):
`urlparse(post.url).path.strip('/').replace('/', '_')`, with the
title slug as fallback when that is empty, then `.json`. -/
def savePostFilename (post : BlogPost) : String :=
  let filename := replaceChar (stripChars post.url.path '/') '/' '_'
  let filename := if filename = "" then titleSlug post.title else filename
  filename ++ ".json"

/-- The filename of `DocsScraper.save_page` (lines 180-188): same path
flattening, but the fallback is the constant `'index'`. -/
def savePageFilename (page : DocPage) : String :=
  let path := replaceChar (stripChars page.url.path '/') '/' '_'
  let path := if path = "" then "index" else path
  path ++ ".json"

/-- The filename of `ArxivScraper.save_metadata` (line 162). -/
def saveMetadataFilename (paper : ArxivPaper) : String :=
  paper.paper_id ++ ".json"

def savePost (store : Store BlogPost) (post : BlogPost) : Store BlogPost :=
  writeFile store (savePostFilename post) post

def savePage (store : Store DocPage) (page : DocPage) : Store DocPage :=
  writeFile store (savePageFilename page) page

def saveMetadata (store : Store ArxivPaper) (paper : ArxivPaper) : Store ArxivPaper :=
  writeFile store (saveMetadataFilename paper) paper

/-- Writing the same path twice keeps one entry with the last content. -/
theorem writeFile_overwrite {α : Type} (store : Store α) (path : String) (c1 c2 : α) :
    writeFile (writeFile store path c1) path c2 = writeFile store path c2 := by
  by_cases hany : store.any (fun e => e.1 == path)
  · have hany2 : (store.map (fun e => if e.1 == path then (path, c1) else e)).any
        (fun e => e.1 == path) = true := by
      rw [List.any_eq_true] at hany ⊢
      obtain ⟨e, he, hep⟩ := hany
      refine ⟨(path, c1), List.mem_map.mpr ⟨e, he, by simp [hep]⟩, by simp⟩
    simp only [writeFile, hany, if_true, hany2]
    rw [List.map_map]
    refine List.map_congr_left ?_
    intro e _
    by_cases hep : e.1 == path
    · simp [Function.comp, hep]
    · simp [Function.comp, hep]
  · have hany2 : ((store ++ [(path, c1)]).any (fun e => e.1 == path)) = true := by
      rw [List.any_eq_true]
      exact ⟨(path, c1), by simp, by simp⟩
    simp only [writeFile, hany, if_false, hany2, if_true, Bool.false_eq_true]
    rw [List.map_append]
    have hid : store.map (fun e => if e.1 == path then (path, c2) else e) = store := by
      refine List.map_congr_left ?_ |>.trans (List.map_id store)
      intro e he
      have : (e.1 == path) = false := by
        rw [List.any_eq_true] at hany
        push_neg at hany
        simpa using hany e he
      simp [this]
    rw [hid]
    simp

/-- C8 (amended): the file path is a deterministic function of the
record's identity for papers (the identity itself), for doc pages (the
flattened URL path, with the constant fallback `'index'` — not a title
slug), and for posts whose URL path is nonempty after stripping slashes;
a post whose URL path is empty or `/` instead gets a 50-character
title-derived slug, so two same-identity posts with different titles can
write to two different paths.  Whenever the derived path coincides, the
second save overwrites the first instead of creating a second file. -/
theorem save_path_identity_spec :
    (∀ p q : ArxivPaper, p.paper_id = q.paper_id →
      saveMetadataFilename p = saveMetadataFilename q) ∧
    (∀ p q : DocPage, p.url = q.url → savePageFilename p = savePageFilename q) ∧
    (∀ p q : BlogPost, p.url = q.url →
      replaceChar (stripChars p.url.path '/') '/' '_' ≠ "" →
      savePostFilename p = savePostFilename q) ∧
    (∀ (α : Type) (store : Store α) (path : String) (c1 c2 : α),
      writeFile (writeFile store path c1) path c2 = writeFile store path c2) := by
  refine ⟨?_, ?_, ?_, ?_⟩
  · intro p q h
    simp [saveMetadataFilename, h]
  · intro p q h
    simp [savePageFilename, h]
  · intro p q hurl hne
    simp only [savePostFilename, hurl]
    rw [if_neg (by rw [← hurl]; exact hne)]
    rw [if_neg (by rw [← hurl]; exact hne)]
  · intro α store path c1 c2
    exact writeFile_overwrite store path c1 c2

def postPathA : BlogPost :=
  { url := { netloc := "blog.categorylabs.xyz", path := "/posts/one", fragment := none },
    title := "One", author := none, published := none, content := "",
    excerpt := "", tags := [], source := "category_labs" }

def postPathB : BlogPost :=
  { url := { netloc := "blog.categorylabs.xyz", path := "/posts/one", fragment := none },
    title := "One, revised", author := none, published := none, content := "v2",
    excerpt := "", tags := [], source := "category_labs" }

/-- C8 witness: two same-identity posts with a nonempty URL path map to
the same file, and the second write overwrites the first. -/
theorem save_path_identity_witness :
    postPathA.url = postPathB.url ∧
    replaceChar (stripChars postPathA.url.path '/') '/' '_' ≠ "" ∧
    savePostFilename postPathA = savePostFilename postPathB ∧
    writeFile (writeFile ([] : Store BlogPost) "posts_one.json" postPathA)
        "posts_one.json" postPathB =
      writeFile ([] : Store BlogPost) "posts_one.json" postPathB :=
  ⟨rfl, by decide,
   save_path_identity_spec.2.2.1 postPathA postPathB rfl (by decide),
   save_path_identity_spec.2.2.2 BlogPost [] "posts_one.json" postPathA postPathB⟩

def postEmptyA : BlogPost :=
  { url := blogBaseUrl, title := "Alpha news", author := none, published := none,
    content := "", excerpt := "", tags := [], source := "category_labs" }

def postEmptyB : BlogPost :=
  { url := blogBaseUrl, title := "Beta news", author := none, published := none,
    content := "", excerpt := "", tags := [], source := "category_labs" }

def docIndexPage : DocPage :=
  { url := docsSeedUrl, title := "Alpha news", content := "",
    sectionName := "General", subsection := none, breadcrumbs := [] }

/-- C8 counterexample: two posts with the same identity (the base URL,
whose path is empty) but different titles are written to two different
files, so the save path is not a function of the identity; and a doc
page with an empty path is saved as `index.json`, not under a title
slug. -/
theorem save_post_title_fallback_cx :
    postEmptyA.url = postEmptyB.url ∧
    savePostFilename postEmptyA = "alpha_news.json" ∧
    savePostFilename postEmptyB = "beta_news.json" ∧
    savePostFilename postEmptyA ≠ savePostFilename postEmptyB ∧
    savePost (savePost [] postEmptyA) postEmptyB =
      [("alpha_news.json", postEmptyA), ("beta_news.json", postEmptyB)] ∧
    savePageFilename docIndexPage = "index.json" :=
  ⟨rfl, rfl, rfl, by decide, rfl, rfl⟩

/-! ## Blog post extraction (BlogScraper.scrape_category_labs, lines 58-122)

A post container (`article.post`) is modelled by the outcome of the
selector queries the loop performs on it: `titleElem` is the text of
`find('h2') or find('h1')`, `linkHref` the `href` of the first anchor
resolved against the base URL by `urljoin` (absent when the container
has no anchor), `excerptElem` the text of the first `p`, `authorElem`
and `dateElem` the results of the `_extract_author` / `_extract_date`
fallback chains, and `tagLinks` the link texts of the tag container
(`none` when there is no container).  Fetching the full post body is
modelled by a function from URLs to text. -/

structure Article where
  titleElem : Option String
  linkHref : Option Url
  excerptElem : Option String
  authorElem : Option String
  dateElem : Option String
  tagLinks : Option (List String)
deriving DecidableEq, Repr

/-- One iteration of the container loop: `continue` (i.e. `none`) when
there is no title element; otherwise the post URL defaults to the base
URL when the container has no anchor. -/
def scrapeArticle (fetchContent : Url → String) (article : Article) : Option BlogPost :=
  match article.titleElem with
  | none => none
  | some title =>
    let postUrl := article.linkHref.getD blogBaseUrl
    some
      { url := postUrl,
        title := title,
        author := article.authorElem,
        published := article.dateElem,
        content := fetchContent postUrl,
        excerpt := String.mk ((article.excerptElem.getD "").toList.take 500),
        tags := article.tagLinks.getD [],
        source := "category_labs" }

/-- The container loop of `scrape_category_labs`. -/
def scrapeCategoryLabs (fetchContent : Url → String) (articles : List Article) :
    List BlogPost :=
  articles.foldl
    (fun acc a =>
      match scrapeArticle fetchContent a with
      | some post => acc ++ [post]
      | none => acc) []

theorem savePostFilename_of_base (p : BlogPost) (hp : p.url = blogBaseUrl) :
    savePostFilename p = titleSlug p.title ++ ".json" := by
  simp only [savePostFilename, hp]
  rfl

theorem string_append_json_ne (s t : String) (h : s ≠ t) :
    s ++ ".json" ≠ t ++ ".json" := by
  intro hc
  apply h
  have hd : (s ++ ".json").data = (t ++ ".json").data := by rw [hc]
  rw [String.data_append, String.data_append] at hd
  have h2 := List.append_cancel_right hd
  cases s
  cases t
  exact congrArg String.mk h2

/-- C10 (amended): a post container with a title but no anchor yields a
record whose `url` (its identity) is the blog's base URL, so several
such containers on one page produce records sharing that identity; but
`save_post` derives the filename from the *title* when the URL path is
empty, so those records land in the same file — last save winning —
only when their title slugs coincide; records with distinct title slugs
are written to distinct files. -/
theorem no_link_posts_default_url_spec :
    (∀ (fc : Url → String) (a : Article) (t : String),
      a.titleElem = some t → a.linkHref = none →
      ∃ p, scrapeArticle fc a = some p ∧ p.url = blogBaseUrl ∧ p.title = t) ∧
    (∀ p1 p2 : BlogPost, p1.url = blogBaseUrl → p2.url = blogBaseUrl →
      titleSlug p1.title = titleSlug p2.title →
      savePost (savePost [] p1) p2 = [(savePostFilename p2, p2)]) ∧
    (∀ p1 p2 : BlogPost, p1.url = blogBaseUrl → p2.url = blogBaseUrl →
      titleSlug p1.title ≠ titleSlug p2.title →
      savePost (savePost [] p1) p2 =
        [(savePostFilename p1, p1), (savePostFilename p2, p2)]) := by
  refine ⟨?_, ?_, ?_⟩
  · intro fc a t ht hl
    refine ⟨{ url := blogBaseUrl, title := t, author := a.authorElem,
              published := a.dateElem, content := fc blogBaseUrl,
              excerpt := String.mk ((a.excerptElem.getD "").toList.take 500),
              tags := a.tagLinks.getD [], source := "category_labs" }, ?_, rfl, rfl⟩
    simp [scrapeArticle, ht, hl]
  · intro p1 p2 h1 h2 hslug
    have hf : savePostFilename p1 = savePostFilename p2 := by
      rw [savePostFilename_of_base p1 h1, savePostFilename_of_base p2 h2, hslug]
    simp only [savePost, writeFile, List.any_nil, Bool.false_eq_true, if_false,
      List.nil_append, List.any_cons, List.map_cons, List.map_nil]
    rw [hf]
    simp
  · intro p1 p2 h1 h2 hslug
    have hf : savePostFilename p1 ≠ savePostFilename p2 := by
      rw [savePostFilename_of_base p1 h1, savePostFilename_of_base p2 h2]
      exact string_append_json_ne _ _ hslug
    simp only [savePost, writeFile, List.any_nil, Bool.false_eq_true, if_false,
      List.nil_append, List.any_cons, List.map_cons, List.map_nil]
    have : (savePostFilename p1 == savePostFilename p2) = false := by
      simpa using hf
    simp [this]

def articleAlpha : Article :=
  { titleElem := some "Alpha post", linkHref := none, excerptElem := none,
    authorElem := none, dateElem := none, tagLinks := none }

def articleBeta : Article :=
  { titleElem := some "Beta post", linkHref := none, excerptElem := none,
    authorElem := none, dateElem := none, tagLinks := none }

/-- The full-content fetch used by the concrete examples. -/
def noContent : Url → String := fun _ => ""

def postAlpha : BlogPost :=
  { url := blogBaseUrl, title := "Alpha post", author := none, published := none,
    content := "", excerpt := "", tags := [], source := "category_labs" }

def postBeta : BlogPost :=
  { url := blogBaseUrl, title := "Beta post", author := none, published := none,
    content := "", excerpt := "", tags := [], source := "category_labs" }

/-- The same post re-extracted with identical title but new body. -/
def postAlphaDup : BlogPost :=
  { url := blogBaseUrl, title := "Alpha post", author := none, published := none,
    content := "second version", excerpt := "", tags := [], source := "category_labs" }

/-- C10 counterexample: two title-only containers on one page produce
records sharing the base-URL identity, yet `save_post` writes them to
two different files (`alpha_post.json` and `beta_post.json`), refuting
"save_post writes them all to the same file". -/
theorem no_link_posts_same_file_cx :
    scrapeCategoryLabs noContent [articleAlpha, articleBeta] = [postAlpha, postBeta] ∧
    postAlpha.url = postBeta.url ∧
    savePostFilename postAlpha = "alpha_post.json" ∧
    savePostFilename postBeta = "beta_post.json" ∧
    savePost (savePost [] postAlpha) postBeta =
      [("alpha_post.json", postAlpha), ("beta_post.json", postBeta)] ∧
    ("alpha_post.json" : String) ≠ "beta_post.json" :=
  ⟨rfl, rfl, rfl, rfl, rfl, by decide⟩

/-- C10 witness: the amended theorem at the concrete containers — a
title-only container defaults its record's URL to the base URL, and two
same-slug records do share one file, the last write winning. -/
theorem no_link_posts_default_url_witness :
    articleAlpha.titleElem = some "Alpha post" ∧
    articleAlpha.linkHref = none ∧
    (∃ p, scrapeArticle noContent articleAlpha = some p ∧
      p.url = blogBaseUrl ∧ p.title = "Alpha post") ∧
    titleSlug postAlpha.title = titleSlug postAlphaDup.title ∧
    savePost (savePost [] postAlpha) postAlphaDup =
      [(savePostFilename postAlphaDup, postAlphaDup)] :=
  ⟨rfl, rfl,
   no_link_posts_default_url_spec.1 noContent articleAlpha "Alpha post" rfl rfl,
   rfl,
   no_link_posts_default_url_spec.2.1 postAlpha postAlphaDup rfl rfl rfl⟩
